import Mathlib

/-
  Verification of the rust-blockchain repository core against its specification.

  Shallow embedding notes:
  - Machine integers are modelled as Nat / Int (i32 values live in Int, with the
    bincode encoder reducing mod 2^32 where the byte image matters).
  - External collaborators (SHA-256, ed25519, the base58 address decoder) are
    taken as function parameters, as the spec declares them out of scope; the
    deterministic bincode byte encoding is implemented concretely.
  - sled key-value stores are modelled as association lists (the blocks store)
    or as lookup functions String to Option value (the utxos store), since all
    claims compare stores key-by-key.
  - Rust panics (slice out of range, Option::unwrap on None, Vec index out of
    range) are modelled by the dedicated RunResult.crash outcome.
-/

namespace RChain

/-- Result of running a fallible Rust code path: Ok value, an anyhow error
with its message, or a process abort (Rust panic). -/
inductive RunResult (α : Type) where
  | ok : α → RunResult α
  | err : String → RunResult α
  | crash : RunResult α
deriving Repr, DecidableEq

/-! ### Byte-level encoding (bincode collaborator, fixed little-endian encoding) -/

/-- Little-endian byte image of a natural number in `w` bytes. -/
def leBytes : Nat → Nat → List Nat
  | 0, _ => []
  | w + 1, v => (v % 256) :: leBytes w (v / 256)

/-- bincode image of a u64 (also used for usize and sequence lengths). -/
def u64le (v : Nat) : List Nat := leBytes 8 v

/-- bincode image of a u128. -/
def u128le (v : Nat) : List Nat := leBytes 16 v

/-- bincode image of an i32, two's complement little-endian. -/
def i32le (v : Int) : List Nat := leBytes 4 (v % (2 ^ 32)).toNat

/-- UTF-8 bytes of one character. -/
def charUtf8 (c : Char) : List Nat :=
  let n := c.toNat
  if n < 128 then [n]
  else if n < 2048 then [192 + n / 64, 128 + n % 64]
  else if n < 65536 then [224 + n / 4096, 128 + (n / 64) % 64, 128 + n % 64]
  else [240 + n / 262144, 128 + (n / 4096) % 64, 128 + (n / 64) % 64, 128 + n % 64]

/-- UTF-8 byte list of a string. -/
def strBytes (s : String) : List Nat := s.data.flatMap charUtf8

/-- bincode image of a String: u64 byte length, then UTF-8 bytes. -/
def encodeString (s : String) : List Nat := u64le (strBytes s).length ++ strBytes s

/-- bincode image of a byte vector: u64 length, then the raw bytes. -/
def encodeBytes (bs : List Nat) : List Nat := u64le bs.length ++ bs

/-- bincode image of a sequence: u64 element count, then the elements. -/
def encodeList {α : Type} (enc : α → List Nat) (xs : List α) : List Nat :=
  u64le xs.length ++ xs.flatMap enc

/-! ### Transaction data model (src/src/transaction.rs) -/

/-- TXInput: txid of the referenced transaction, output index, signature and
public key bytes. -/
structure TXInput where
  txid : String
  vout : Int
  signature : List Nat
  pub_key : List Nat
deriving Repr, DecidableEq

/-- TXOutput: value and the 20-byte public key hash it is locked to. -/
structure TXOutput where
  value : Int
  pub_key_hash : List Nat
deriving Repr, DecidableEq

/-- Transaction: id (hex digest string), inputs, outputs. -/
structure Transaction where
  id : String
  vin : List TXInput
  vout : List TXOutput
deriving Repr, DecidableEq

/-- TXOutputs wrapper stored in the utxos KV store. -/
structure TXOutputs where
  outputs : List TXOutput
deriving Repr, DecidableEq

/-- bincode image of a TXInput (field order as declared). -/
def encodeTXInput (v : TXInput) : List Nat :=
  encodeString v.txid ++ i32le v.vout ++ encodeBytes v.signature ++ encodeBytes v.pub_key

/-- bincode image of a TXOutput. -/
def encodeTXOutput (o : TXOutput) : List Nat :=
  i32le o.value ++ encodeBytes o.pub_key_hash

/-- bincode image of a Transaction. -/
def encodeTransaction (t : Transaction) : List Nat :=
  encodeString t.id ++ encodeList encodeTXInput t.vin ++ encodeList encodeTXOutput t.vout

/-- Transaction with its id field cleared, as Transaction::hash does in place. -/
def clearTx (t : Transaction) : Transaction := { t with id := "" }

/-- Value returned by Transaction::hash: hex digest of the bincode image of the
transaction with the id field cleared. `hexDigest` is the SHA-256 collaborator
returning the lowercase hex string. -/
def txHashValue (hexDigest : List Nat → String) (t : Transaction) : String :=
  hexDigest (encodeTransaction (clearTx t))

/-- Transaction::hash takes &mut self: it clears self.id and leaves it cleared,
returning the digest.  The pair is (returned digest, mutated transaction). -/
def txHashRun (hexDigest : List Nat → String) (t : Transaction) : String × Transaction :=
  (txHashValue hexDigest t, clearTx t)

/-- is_coinbase: exactly one input with empty txid and vout = -1. -/
def isCoinbase (t : Transaction) : Bool :=
  match t.vin with
  | [v] => v.txid == "" && v.vout == (-1 : Int)
  | _ => false

/-! ### Block and proof of work (src/src/block.rs) -/

/-- Difficulty: number of leading hex zero characters required. -/
def TARGET_HEXT : Nat := 4

/-- Block record. timestamp is u128 milliseconds, height usize, nonce i32. -/
structure Block where
  timestamp : Nat
  transactions : List Transaction
  prev_block_hash : String
  hash : String
  height : Nat
  nonce : Int
deriving Repr, DecidableEq

/-- Merge of the merkle tree (MergeTx): SHA-256 of the concatenation, raw
32 bytes. `shaRaw` is the raw SHA-256 collaborator. -/
def mergeTx (shaRaw : List Nat → List Nat) (l r : List Nat) : List Nat :=
  shaRaw (l ++ r)

/-- Node `i` of the complete binary merkle tree (merkle-cbt crate) with the
given leaves: leaves occupy positions n-1 .. 2n-2, and an inner node is the
merge of its two children.  `fuel` bounds the recursion depth. -/
def cbmtNode (shaRaw : List Nat → List Nat) (leaves : List (List Nat)) :
    Nat → Nat → List Nat
  | 0, _ => []
  | fuel + 1, i =>
    let n := leaves.length
    if n ≤ i + 1 then (leaves.get? (i + 1 - n)).getD []
    else mergeTx shaRaw (cbmtNode shaRaw leaves fuel (2 * i + 1))
      (cbmtNode shaRaw leaves fuel (2 * i + 2))

/-- Root of the complete binary merkle tree; the empty tree has the default
(empty) root. -/
def merkleRoot (shaRaw : List Nat → List Nat) (leaves : List (List Nat)) : List Nat :=
  match leaves with
  | [] => []
  | _ => cbmtNode shaRaw leaves leaves.length 0

/-- Block::hash_transactions: pushes each transaction digest (as the ASCII
bytes of its hex string) into the merkle tree and returns the root.  Because
Transaction::hash mutates, every transaction in the block comes back with its
id cleared: the pair is (root, mutated block). -/
def hashTransactions (hexDigest : List Nat → String) (shaRaw : List Nat → List Nat)
    (b : Block) : List Nat × Block :=
  (merkleRoot shaRaw (b.transactions.map (fun t => strBytes (txHashValue hexDigest t))),
    { b with transactions := b.transactions.map clearTx })

/-- Block::serialize_block: bincode image of the tuple
(prev_block_hash, hash_transactions, timestamp, TARGET_HEXT, nonce); carries
the transaction-id mutation of hash_transactions. -/
def serializeBlock (hexDigest : List Nat → String) (shaRaw : List Nat → List Nat)
    (b : Block) : List Nat × Block :=
  (encodeString b.prev_block_hash
      ++ encodeBytes (hashTransactions hexDigest shaRaw b).1
      ++ u128le b.timestamp ++ u64le TARGET_HEXT ++ i32le b.nonce,
    (hashTransactions hexDigest shaRaw b).2)

/-- The byte content whose digest is the block hash. -/
def blockContent (hexDigest : List Nat → String) (shaRaw : List Nat → List Nat)
    (b : Block) : List Nat :=
  (serializeBlock hexDigest shaRaw b).1

/-- Block::validate: digest of the serialized content has its first
TARGET_HEXT characters equal to the characters of "0000".  (The Rust code
slices the first four bytes of the hex string; real digests always have 64
characters, and the model compares the four-character take.) -/
def validateBlock (hexDigest : List Nat → String) (shaRaw : List Nat → List Nat)
    (b : Block) : Bool × Block :=
  ((hexDigest (serializeBlock hexDigest shaRaw b).1).take TARGET_HEXT == "0000",
    (serializeBlock hexDigest shaRaw b).2)

/-- The proof-of-work loop of run_proof_if_work: while not valid, increment
the nonce.  `fuel` bounds the search; the Rust loop has no bound. -/
def powLoop (hexDigest : List Nat → String) (shaRaw : List Nat → List Nat) :
    Nat → Block → Option Block
  | 0, _ => none
  | fuel + 1, b =>
    if (validateBlock hexDigest shaRaw b).1 then
      some (validateBlock hexDigest shaRaw b).2
    else
      powLoop hexDigest shaRaw fuel
        { (validateBlock hexDigest shaRaw b).2 with
          nonce := (validateBlock hexDigest shaRaw b).2.nonce + 1 }

/-- Block::run_proof_if_work: search for a valid nonce, then record the digest
of the serialized content as the block hash. -/
def runProofOfWork (hexDigest : List Nat → String) (shaRaw : List Nat → List Nat)
    (fuel : Nat) (b : Block) : Option Block :=
  match powLoop hexDigest shaRaw fuel b with
  | none => none
  | some b1 =>
    some { (serializeBlock hexDigest shaRaw b1).2 with
           hash := hexDigest (serializeBlock hexDigest shaRaw b1).1 }

/-- Block::new_block: stamp the timestamp (passed as an environment input),
start with nonce 0 and empty hash, and run the proof of work. -/
def newBlock (hexDigest : List Nat → String) (shaRaw : List Nat → List Nat)
    (fuel : Nat) (data : List Transaction) (prev_block_hash : String)
    (height : Nat) (timestamp : Nat) : Option Block :=
  runProofOfWork hexDigest shaRaw fuel
    { timestamp := timestamp, transactions := data,
      prev_block_hash := prev_block_hash, hash := "", height := height, nonce := 0 }

/-! ### Blockchain store and operations (src/src/blockchain.rs) -/

/-- The sled "blocks" store: block hash to Block (serialization folded away by
the round-trip property of the codec), plus the "LAST" key holding the tip
hash as a UTF-8 string. -/
structure BlocksDb where
  blocks : List (String × Block)
  last : Option String
deriving Repr, DecidableEq

/-- Blockchain: the tip hash held in memory plus the database handle. -/
structure Blockchain where
  current_hash : String
  db : BlocksDb
deriving Repr, DecidableEq

/-- Key lookup in the blocks store. -/
def dbGet (db : List (String × Block)) (k : String) : Option Block :=
  (db.find? (fun p => p.1 == k)).map Prod.snd

/-- Key insert in the blocks store: replace an existing binding, else append. -/
def dbInsert (db : List (String × Block)) (k : String) (b : Block) :
    List (String × Block) :=
  if (db.find? (fun p => p.1 == k)).isSome then
    db.map (fun p => if p.1 == k then (k, b) else p)
  else db ++ [(k, b)]

/-- Blockchain::new: open the store and read "LAST"; when the key is absent the
tip hash is the empty string and the call still succeeds. -/
def blockchainNew (db : BlocksDb) : Except String Blockchain :=
  match db.last with
  | none => .ok { current_hash := "", db := db }
  | some h => .ok { current_hash := h, db := db }

/-- BlockchainIterator::next, iterated: follow prev_block_hash links starting
from the given hash, stopping at the first key the store misses.  `fuel`
bounds the walk; on the acyclic stores the code builds, blocks.length + 1
steps exhaust the chain. -/
def chainWalk (db : List (String × Block)) : Nat → String → List Block
  | 0, _ => []
  | fuel + 1, h =>
    match dbGet db h with
    | none => []
    | some b => b :: chainWalk db fuel b.prev_block_hash

/-- The reverse-chronological block sequence produced by Blockchain::iter. -/
def iterBlocks (bc : Blockchain) : List Block :=
  chainWalk bc.db.blocks (bc.db.blocks.length + 1) bc.current_hash

/-- All transactions of the chain in iterator (tip-first) order. -/
def txsOf (blocks : List Block) : List Transaction :=
  blocks.flatMap Block.transactions

/-- Blockchain::get_best_height: read "LAST", fetch the tip block, return its
height. -/
def getBestHeight (bc : Blockchain) : Except String Nat :=
  match bc.db.last with
  | none => .error "Last hash not found"
  | some lasthash =>
    match dbGet bc.db.blocks lasthash with
    | none => .error "Block not found"
    | some b => .ok b.height

/-- Blockchain::find_transaction: linear walk of the chain for a transaction
with the given id. -/
def findTransaction (bc : Blockchain) (id : String) : Except String Transaction :=
  match (txsOf (iterBlocks bc)).find? (fun t => t.id == id) with
  | some t => .ok t
  | none => .error "Transaction is not found"

/-- Point update of a lookup-function map. -/
def mapIns {α : Type} (m : String → Option α) (k : String) (v : α) :
    String → Option α :=
  fun k1 => if k1 = k then some v else m k1

/-- Point removal from a lookup-function map. -/
def mapDel {α : Type} (m : String → Option α) (k : String) : String → Option α :=
  fun k1 => if k1 = k then none else m k1

/-- Blockchain::get_prev_txs: find every transaction referenced by an input and
key it in a HashMap (modelled as a lookup function) under its own id. -/
def getPrevTxs (bc : Blockchain) (tx : Transaction) :
    Except String (String → Option Transaction) :=
  tx.vin.foldlM
    (fun acc vin => do
      let prev ← findTransaction bc vin.txid
      pure (mapIns acc prev.id prev))
    (fun _ => none)

/-! ### Transaction sign and verify (src/src/transaction.rs) -/

/-- Outcome of the first loop of Transaction::verify and Transaction::sign over
the inputs: all referenced transactions present with non-empty ids, or a
referenced transaction with an empty id (error), or a referenced transaction
missing from prev_txs (Option::unwrap on None, a panic). -/
inductive PrevCheck where
  | okC
  | errC
  | crashC
deriving Repr, DecidableEq

/-- First loop of verify and sign: scan the inputs in order; unwrap of a
missing prev transaction aborts, an empty id returns the error. -/
def checkPrevs (prevs : String → Option Transaction) : List TXInput → PrevCheck
  | [] => .okC
  | vin :: rest =>
    match prevs vin.txid with
    | none => .crashC
    | some p => if p.id = "" then .errC else checkPrevs prevs rest

/-- Transaction::trim_copy: clone with every input signature and pub_key
cleared. -/
def trimCopy (tx : Transaction) : Transaction :=
  { id := tx.id,
    vin := tx.vin.map (fun v => { v with signature := [], pub_key := [] }),
    vout := tx.vout }

/-- Set the signature of input `i`. -/
def setVinSig (tx : Transaction) (i : Nat) (sig : List Nat) : Transaction :=
  let v1 :=
    match tx.vin.get? i with
    | some v => { v with signature := sig }
    | none => { txid := "", vout := 0, signature := sig, pub_key := [] }
  { tx with vin := tx.vin.set i v1 }

/-- Set the pub_key of input `i`. -/
def setVinPubkey (tx : Transaction) (i : Nat) (pk : List Nat) : Transaction :=
  let v1 :=
    match tx.vin.get? i with
    | some v => { v with pub_key := pk }
    | none => { txid := "", vout := 0, signature := [], pub_key := pk }
  { tx with vin := tx.vin.set i v1 }

/-- Index prev.vout by an input's vout field after the `as usize` cast: a
negative index or one past the end is out of range (panic). -/
def voutAt (prev : Transaction) (v : Int) : Option TXOutput :=
  if v < 0 then none else prev.vout.get? v.toNat

/-- Second loop of Transaction::verify: for each input index, rebuild the trim
copy digest with the referenced output's pub_key_hash committed, and check the
ed25519 signature.  `edVerify` takes message bytes, pub_key, signature. -/
def verifyLoop (hexDigest : List Nat → String)
    (edVerify : List Nat → List Nat → List Nat → Bool)
    (tx : Transaction) (prevs : String → Option Transaction) :
    List Nat → Transaction → RunResult Bool
  | [], _ => .ok true
  | i :: rest, tcopy =>
    match tx.vin.get? i with
    | none => .crash
    | some vinI =>
      match prevs vinI.txid with
      | none => .crash
      | some prev =>
        match voutAt prev vinI.vout with
        | none => .crash
        | some pout =>
          let tc0 := setVinSig tcopy i []
          let tc1 := setVinPubkey tc0 i pout.pub_key_hash
          let digest := txHashValue hexDigest tc1
          let tc2 := { setVinPubkey tc1 i [] with id := digest }
          if edVerify (strBytes digest) vinI.pub_key vinI.signature then
            verifyLoop hexDigest edVerify tx prevs rest tc2
          else .ok false

/-- Transaction::verify. -/
def txVerify (hexDigest : List Nat → String)
    (edVerify : List Nat → List Nat → List Nat → Bool)
    (tx : Transaction) (prevs : String → Option Transaction) : RunResult Bool :=
  if isCoinbase tx then .ok true
  else
    match checkPrevs prevs tx.vin with
    | .crashC => .crash
    | .errC => .err "ERROR: Previous transaction is not correct"
    | .okC =>
      verifyLoop hexDigest edVerify tx prevs (List.range tx.vin.length) (trimCopy tx)

/-- Second loop of Transaction::sign: same digest construction, but writing an
ed25519 signature into self for each input.  `edSign` takes message bytes and
the private key. -/
def signLoop (hexDigest : List Nat → String)
    (edSign : List Nat → List Nat → List Nat)
    (privateKey : List Nat) (prevs : String → Option Transaction) :
    List Nat → Transaction → Transaction → RunResult Transaction
  | [], _, self => .ok self
  | i :: rest, tcopy, self =>
    match tcopy.vin.get? i with
    | none => .crash
    | some vinI =>
      match prevs vinI.txid with
      | none => .crash
      | some prev =>
        match voutAt prev vinI.vout with
        | none => .crash
        | some pout =>
          let tc0 := setVinSig tcopy i []
          let tc1 := setVinPubkey tc0 i pout.pub_key_hash
          let digest := txHashValue hexDigest tc1
          let tc2 := { setVinPubkey tc1 i [] with id := digest }
          let sig := edSign (strBytes digest) privateKey
          signLoop hexDigest edSign privateKey prevs rest tc2 (setVinSig self i sig)

/-- Transaction::sign: coinbase is a no-op; otherwise check the referenced
transactions then sign every input. -/
def txSign (hexDigest : List Nat → String)
    (edSign : List Nat → List Nat → List Nat)
    (privateKey : List Nat) (tx : Transaction)
    (prevs : String → Option Transaction) : RunResult Transaction :=
  if isCoinbase tx then .ok tx
  else
    match checkPrevs prevs tx.vin with
    | .crashC => .crash
    | .errC => .err "ERROR: Previous transaction is not correct"
    | .okC =>
      signLoop hexDigest edSign privateKey prevs (List.range tx.vin.length)
        (trimCopy tx) tx

/-- Blockchain::verify_transaction: coinbase is always valid; otherwise collect
the referenced transactions from the chain and delegate to Transaction::verify. -/
def verifyTransactionBC (hexDigest : List Nat → String)
    (edVerify : List Nat → List Nat → List Nat → Bool)
    (bc : Blockchain) (tx : Transaction) : RunResult Bool :=
  if isCoinbase tx then .ok true
  else
    match getPrevTxs bc tx with
    | .error e => .err e
    | .ok prevs => txVerify hexDigest edVerify tx prevs

/-- The verification loop at the head of Blockchain::mine_block: any failing
transaction yields the "Invalid transaction" error. -/
def verifyAllTxs (hexDigest : List Nat → String)
    (edVerify : List Nat → List Nat → List Nat → Bool)
    (bc : Blockchain) : List Transaction → RunResult Unit
  | [] => .ok ()
  | tx :: rest =>
    match verifyTransactionBC hexDigest edVerify bc tx with
    | .crash => .crash
    | .err e => .err e
    | .ok false => .err "Invalid transaction"
    | .ok true => verifyAllTxs hexDigest edVerify bc rest

/-- Blockchain::mine_block: verify the transactions, read the tip hash and the
best height, build the new block with height equal to get_best_height (the
source passes it through without adding one), persist it and move the tip. -/
def mineBlock (hexDigest : List Nat → String) (shaRaw : List Nat → List Nat)
    (edVerify : List Nat → List Nat → List Nat → Bool) (fuel : Nat)
    (bc : Blockchain) (txs : List Transaction) (timestamp : Nat) :
    RunResult (Block × Blockchain) :=
  match verifyAllTxs hexDigest edVerify bc txs with
  | .crash => .crash
  | .err e => .err e
  | .ok _ =>
    match bc.db.last with
    | none => .err "Last hash not found"
    | some lasthash =>
      match getBestHeight bc with
      | .error e => .err e
      | .ok height =>
        match newBlock hexDigest shaRaw fuel txs lasthash height timestamp with
        | none => .err "proof of work fuel exhausted"
        | some nb =>
          .ok (nb,
            { current_hash := nb.hash,
              db := { blocks := dbInsert bc.db.blocks nb.hash nb,
                      last := some nb.hash } })

/-! ### Blockchain::find_utxo (src/src/blockchain.rs) and the UTXO set
(src/src/utxoset.rs).  The two HashMaps of the scan and the utxos sled store
are modelled as lookup functions compared key by key. -/

/-- State of the find_utxo scan: collected unspent outputs per txid, and the
recorded spent output indices per txid. -/
structure ScanSt where
  utxos : String → Option TXOutputs
  spent : String → Option (List Int)

/-- Membership test of the spent map, as the scan performs it. -/
def spentHas (spent : String → Option (List Int)) (id : String) (idx : Int) : Bool :=
  match spent id with
  | some ids => ids.contains idx
  | none => false

/-- Push one unspent output under a txid, as the utxos HashMap update does. -/
def pushOut (utxos : String → Option TXOutputs) (id : String) (out : TXOutput) :
    String → Option TXOutputs :=
  match utxos id with
  | some v => mapIns utxos id ⟨v.outputs ++ [out]⟩
  | none => mapIns utxos id ⟨[out]⟩

/-- One step of the output loop of find_utxo: skip an index recorded as
spent, push the rest. -/
def outStep (spent : String → Option (List Int)) (id : String)
    (u : String → Option TXOutputs) (p : Nat × TXOutput) :
    String → Option TXOutputs :=
  if spentHas spent id ((p.1 : Int)) then u else pushOut u id p.2

/-- The output loop of find_utxo for one transaction: walk the outputs by
index, skip indices recorded as spent, push the rest. -/
def scanTxOutputs (spent : String → Option (List Int)) (tx : Transaction)
    (utxos : String → Option TXOutputs) : String → Option TXOutputs :=
  tx.vout.enum.foldl (outStep spent tx.id) utxos

/-- One step of the spent-map update: append the input's vout under its txid. -/
def spendStep (s : String → Option (List Int)) (vin : TXInput) :
    String → Option (List Int) :=
  match s vin.txid with
  | some v => mapIns s vin.txid (v ++ [vin.vout])
  | none => mapIns s vin.txid [vin.vout]

/-- The input loop of find_utxo for one transaction: a non-coinbase
transaction records every input as spent. -/
def recordSpends (s : String → Option (List Int)) (tx : Transaction) :
    String → Option (List Int) :=
  if isCoinbase tx then s else tx.vin.foldl spendStep s

/-- find_utxo processing of one transaction: outputs filtered against the
spent map seen so far, then the inputs recorded. -/
def scanTx (st : ScanSt) (tx : Transaction) : ScanSt :=
  { utxos := scanTxOutputs st.spent tx st.utxos,
    spent := recordSpends st.spent tx }

/-- Initial state of the find_utxo scan: two empty HashMaps. -/
def emptyScan : ScanSt :=
  { utxos := fun _ => none, spent := fun _ => none }

/-- Blockchain::find_utxo over the block sequence the iterator yields
(tip-first): fold every transaction of every block through the scan. -/
def findUTXO (blocks : List Block) : String → Option TXOutputs :=
  (blocks.foldl (fun st (b : Block) => b.transactions.foldl scanTx st) emptyScan).utxos

/-- Blockchain::find_utxo of a chain. -/
def bcFindUTXO (bc : Blockchain) : String → Option TXOutputs :=
  findUTXO (iterBlocks bc)

/-- UTXOSet::reindex: destroy the utxos store and write one entry per
find_utxo result.  The resulting store contents are exactly the find_utxo
map. -/
def utxoReindex (bc : Blockchain) : String → Option TXOutputs :=
  bcFindUTXO bc

/-- The rebuild of a stored output vector in UTXOSet::update: keep every
position except the one equal to the input's vout (compacting the vector). -/
def rebuildOuts (outs : TXOutputs) (v : Int) : TXOutputs :=
  ⟨(outs.outputs.enum.filter (fun p => !((p.1 : Int) == v))).map Prod.snd⟩

/-- The input loop of UTXOSet::update for one transaction: read the stored
vector of the referenced txid (unwrap of a missing key aborts), rebuild it
without the spent position, delete the key when empty. -/
def spendInputs (store : String → Option TXOutputs) :
    List TXInput → RunResult (String → Option TXOutputs)
  | [] => .ok store
  | vin :: rest =>
    match store vin.txid with
    | none => .crash
    | some outs =>
      let upd := rebuildOuts outs vin.vout
      let store1 :=
        if upd.outputs.isEmpty then mapDel store vin.txid
        else mapIns store vin.txid upd
      spendInputs store1 rest

/-- UTXOSet::update processing of one transaction: spend its inputs (unless
coinbase), then store its own outputs under its id. -/
def updateTx (store : String → Option TXOutputs) (tx : Transaction) :
    RunResult (String → Option TXOutputs) :=
  let afterIn :=
    if isCoinbase tx then .ok store else spendInputs store tx.vin
  match afterIn with
  | .ok s => .ok (mapIns s tx.id ⟨tx.vout⟩)
  | .err e => .err e
  | .crash => .crash

/-- UTXOSet::update over a block. -/
def utxoUpdate (store : String → Option TXOutputs) (b : Block) :
    RunResult (String → Option TXOutputs) :=
  b.transactions.foldl
    (fun acc tx =>
      match acc with
      | .ok s => updateTx s tx
      | .err e => .err e
      | .crash => .crash)
    (.ok store)

/-- Lookup of one key through a RunResult-wrapped store. -/
def runGet (r : RunResult (String → Option TXOutputs)) (k : String) :
    Option (Option TXOutputs) :=
  match r with
  | .ok s => some (s k)
  | _ => none

/-! ### Wallets and new_coinbase (src/src/wallet.rs, src/src/transaction.rs) -/

/-- Wallet: an ed25519 secret and public key. -/
structure Wallet where
  secret_key : List Nat
  public_key : List Nat
deriving Repr, DecidableEq

/-- Transaction::new_coinbase: default the data string, require the receiving
address to have a wallet in the local store (modelled as a lookup function) or
fail, then build the single-input single-output reward transaction.
`addrDecode` is the external base58 address decoder returning the pub key
hash.  The quotation marks the source puts around the address in the default
data string are elided. -/
def newCoinbase (hexDigest : List Nat → String) (addrDecode : String → List Nat)
    (wallets : String → Option Wallet) (toAddr : String) (data : String) :
    Except String Transaction :=
  let d := if data = "" then "Reward to " ++ toAddr else data
  match wallets toAddr with
  | none => .error "coinbase wallet not found"
  | some _ =>
    let tx : Transaction :=
      { id := "",
        vin := [{ txid := "", vout := -1, signature := [], pub_key := strBytes d }],
        vout := [{ value := 100, pub_key_hash := addrDecode toAddr }] }
    .ok { tx with id := txHashValue hexDigest tx }

/-! ### Server message parsing (src/src/server.rs) -/

/-- Fixed command field length of the wire framing. -/
def CMD_LENGTH : Nat := 12

/-- Payload of the block command. -/
structure BlockMsg where
  addr_from : String
  block : Block
deriving Repr, DecidableEq

/-- Payload of the getblocks command. -/
structure GetBlocksMsg where
  addr_from : String
deriving Repr, DecidableEq

/-- Payload of the getdata command. -/
structure GetDataMsg where
  addr_from : String
  kind : String
  id : String
deriving Repr, DecidableEq

/-- Payload of the inv command. -/
structure InvMsg where
  addr_from : String
  kind : String
  items : List String
deriving Repr, DecidableEq

/-- Payload of the tx command. -/
structure TxMsg where
  addr_from : String
  transaction : Transaction
deriving Repr, DecidableEq

/-- Payload of the version command. -/
structure VersionMsg where
  addr_from : String
  version : Nat
  best_height : Nat
deriving Repr, DecidableEq

/-- Parsed server message. -/
inductive ServerMessage where
  | Addr : List String → ServerMessage
  | Version : VersionMsg → ServerMessage
  | Tx : TxMsg → ServerMessage
  | GetData : GetDataMsg → ServerMessage
  | GetBlocks : GetBlocksMsg → ServerMessage
  | Inv : InvMsg → ServerMessage
  | Block : BlockMsg → ServerMessage
deriving Repr, DecidableEq

/-- The bincode payload decoders, external collaborators of bytes_to_cmd. -/
structure Decoders where
  dAddr : List Nat → Option (List String)
  dBlockMsg : List Nat → Option BlockMsg
  dInv : List Nat → Option InvMsg
  dGetBlocks : List Nat → Option GetBlocksMsg
  dGetData : List Nat → Option GetDataMsg
  dTx : List Nat → Option TxMsg
  dVersion : List Nat → Option VersionMsg

/-- Wrap a decoder outcome: a failed deserialization is an error, not a
panic. -/
def decodeWith {α : Type} (dec : List Nat → Option α) (data : List Nat)
    (ctor : α → ServerMessage) : RunResult ServerMessage :=
  match dec data with
  | some m => .ok (ctor m)
  | none => .err "deserialize error"

/-- bytes_to_cmd: slice the first CMD_LENGTH bytes of the buffer (out of range
when the buffer is shorter — a panic), strip zero padding, dispatch on the
command name, and decode the remaining payload. -/
def bytesToCmd (d : Decoders) (bytes : List Nat) : RunResult ServerMessage :=
  if bytes.length < CMD_LENGTH then .crash
  else
    let cmdBytes := bytes.take CMD_LENGTH
    let data := bytes.drop CMD_LENGTH
    let cmd := cmdBytes.filter (fun b => !(b == 0))
    if cmd = strBytes "addr" then decodeWith d.dAddr data ServerMessage.Addr
    else if cmd = strBytes "block" then decodeWith d.dBlockMsg data ServerMessage.Block
    else if cmd = strBytes "inv" then decodeWith d.dInv data ServerMessage.Inv
    else if cmd = strBytes "getblocks" then
      decodeWith d.dGetBlocks data ServerMessage.GetBlocks
    else if cmd = strBytes "getdata" then
      decodeWith d.dGetData data ServerMessage.GetData
    else if cmd = strBytes "tx" then decodeWith d.dTx data ServerMessage.Tx
    else if cmd = strBytes "version" then
      decodeWith d.dVersion data ServerMessage.Version
    else .err "unknown command"

/-! ### Spec-side reference definitions (written from the words of the spec,
for the refinement claims about find_utxo) -/

/-- Spec-side: the output (id, idx) is referenced by some non-coinbase input
of the transaction list. -/
def refSpent (txs : List Transaction) (id : String) (idx : Int) : Bool :=
  txs.any (fun tx =>
    !isCoinbase tx && tx.vin.any (fun v => v.txid == id && v.vout == idx))

/-- Spec-side: the outputs of a transaction that survive the replay, in
transaction output order. -/
def replayOuts (txs : List Transaction) (tx : Transaction) : List TXOutput :=
  (tx.vout.enum.filter (fun p => !refSpent txs tx.id ((p.1 : Int)))).map Prod.snd

/-- A possibly empty output list as a map entry: no entry when empty. -/
def optOuts (l : List TXOutput) : Option TXOutputs :=
  match l with
  | [] => none
  | _ => some ⟨l⟩

/-- Spec-side replay of the whole transaction list: every transaction
contributes its outputs, and every output referenced by a non-coinbase input
is removed. -/
def replayUTXO (txs : List Transaction) (id : String) : Option TXOutputs :=
  match txs.find? (fun tx => tx.id == id) with
  | none => none
  | some tx => optOuts (replayOuts txs tx)

/-- Chain well-formedness for the scan: walking the list (tip first), no
non-coinbase input of a transaction references the id of that transaction or
of any transaction seen earlier in the walk — spends always point at
chronologically older transactions.  `seen` carries the ids already walked. -/
def spendsForwardAux (seen : List String) : List Transaction → Bool
  | [] => true
  | tx :: rest =>
    (isCoinbase tx ||
      tx.vin.all (fun vin => (tx.id :: seen).all (fun s => vin.txid != s))) &&
    spendsForwardAux (seen ++ [tx.id]) rest

/-- Chain well-formedness for the whole walked transaction list. -/
def spendsForward (txs : List Transaction) : Bool := spendsForwardAux [] txs

/-! ### Concrete collaborator instances and fixtures used by the closed
theorems (the external SHA-256 digest is replaced by a constant function;
none of the evaluated properties depend on the digest values) -/

/-- Constant stand-in for the hex SHA-256 collaborator. -/
def toyHex : List Nat → String := fun _ => "0000abcd"

/-- Constant stand-in for the raw SHA-256 collaborator. -/
def toyRaw : List Nat → List Nat := fun _ => []

/-- Stand-in ed25519 verifier that accepts everything. -/
def toyEdVerify : List Nat → List Nat → List Nat → Bool := fun _ _ _ => true

/-- Stand-in ed25519 signer. -/
def toyEdSign : List Nat → List Nat → List Nat := fun _ _ => []

/-- Stand-in address decoder. -/
def toyAddrDecode : String → List Nat := fun _ => []

/-- Stand-in payload decoders that reject every payload. -/
def toyDecoders : Decoders :=
  { dAddr := fun _ => none, dBlockMsg := fun _ => none, dInv := fun _ => none,
    dGetBlocks := fun _ => none, dGetData := fun _ => none,
    dTx := fun _ => none, dVersion := fun _ => none }

/-- A coinbase input. -/
def cbInput : TXInput := { txid := "", vout := -1, signature := [], pub_key := [] }

/-- A coinbase transaction with a nonempty id. -/
def txG : Transaction :=
  { id := "gtx", vin := [cbInput], vout := [{ value := 100, pub_key_hash := [9] }] }

/-- A genesis-like persisted block of height 0. -/
def blkG : Block :=
  { timestamp := 0, transactions := [txG], prev_block_hash := "", hash := "g",
    height := 0, nonce := 0 }

/-- A chain holding only the genesis block, tip height 0. -/
def bcGenesis : Blockchain :=
  { current_hash := "g", db := { blocks := [("g", blkG)], last := some "g" } }

/-- First output of the two-output transaction of the compaction fixture. -/
def outA0 : TXOutput := { value := 10, pub_key_hash := [1] }

/-- Second output of the two-output transaction of the compaction fixture. -/
def outA1 : TXOutput := { value := 20, pub_key_hash := [2] }

/-- A coinbase transaction with two outputs. -/
def txA2 : Transaction := { id := "a", vin := [cbInput], vout := [outA0, outA1] }

/-- Block holding txA2. -/
def blkA2 : Block :=
  { timestamp := 0, transactions := [txA2], prev_block_hash := "", hash := "ha",
    height := 0, nonce := 0 }

/-- A transaction spending output 0 of txA2. -/
def txSpend0 : Transaction :=
  { id := "s",
    vin := [{ txid := "a", vout := 0, signature := [], pub_key := [] }],
    vout := [{ value := 10, pub_key_hash := [3] }] }

/-- Block holding txSpend0. -/
def blkS0 : Block :=
  { timestamp := 1, transactions := [txSpend0], prev_block_hash := "ha",
    hash := "hb", height := 1, nonce := 0 }

/-- Chain of blkA2 then blkS0. -/
def bcC2chain : Blockchain :=
  { current_hash := "hb",
    db := { blocks := [("ha", blkA2), ("hb", blkS0)], last := some "hb" } }

/-- Outputs of the three-output fixture transaction. -/
def o3a : TXOutput := { value := 10, pub_key_hash := [1] }

/-- Second output of the three-output fixture transaction. -/
def o3b : TXOutput := { value := 20, pub_key_hash := [2] }

/-- Third output of the three-output fixture transaction. -/
def o3c : TXOutput := { value := 30, pub_key_hash := [3] }

/-- A coinbase transaction with three outputs. -/
def txA3 : Transaction := { id := "a", vin := [cbInput], vout := [o3a, o3b, o3c] }

/-- Block holding txA3. -/
def blkA3 : Block :=
  { timestamp := 0, transactions := [txA3], prev_block_hash := "", hash := "ka",
    height := 0, nonce := 0 }

/-- A transaction spending output 0 of txA3 (by its original index). -/
def txS1 : Transaction :=
  { id := "s1",
    vin := [{ txid := "a", vout := 0, signature := [], pub_key := [] }],
    vout := [{ value := 10, pub_key_hash := [7] }] }

/-- Block holding txS1. -/
def blkS1 : Block :=
  { timestamp := 1, transactions := [txS1], prev_block_hash := "ka",
    hash := "k1", height := 1, nonce := 0 }

/-- A transaction spending output 1 of txA3 (by its original index). -/
def txS2 : Transaction :=
  { id := "s2",
    vin := [{ txid := "a", vout := 1, signature := [], pub_key := [] }],
    vout := [{ value := 20, pub_key_hash := [8] }] }

/-- Block holding txS2. -/
def blkS2 : Block :=
  { timestamp := 2, transactions := [txS2], prev_block_hash := "k1",
    hash := "k2", height := 2, nonce := 0 }

/-- The three-output chain before the two spending blocks are appended. -/
def bcC3start : Blockchain :=
  { current_hash := "ka", db := { blocks := [("ka", blkA3)], last := some "ka" } }

/-- The three-output chain after both spending blocks are appended. -/
def bcC3end : Blockchain :=
  { current_hash := "k2",
    db := { blocks := [("ka", blkA3), ("k1", blkS1), ("k2", blkS2)],
            last := some "k2" } }

/-- reindex at the initial tip followed by update of each appended block. -/
def replayStoreC3 : RunResult (String → Option TXOutputs) :=
  match utxoUpdate (utxoReindex bcC3start) blkS1 with
  | .ok s1 => utxoUpdate s1 blkS2
  | .err e => .err e
  | .crash => .crash

/-- The empty blocks store. -/
def emptyDb : BlocksDb := { blocks := [], last := none }

/-- A non-coinbase transaction whose single input references a transaction id
absent from prev_txs. -/
def txMissingPrev : Transaction :=
  { id := "t",
    vin := [{ txid := "zz", vout := 0, signature := [], pub_key := [] }],
    vout := [] }

/-! ### Characterisation helpers used by the proofs -/

/-- A block with every transaction id cleared, the net mutation of
hash_transactions. -/
def mutB (b : Block) : Block :=
  { b with transactions := b.transactions.map clearTx }

/-- The vout indices a single transaction records as spent under a given
txid, in input order. -/
def spentTx (tx : Transaction) (id : String) : List Int :=
  if isCoinbase tx then []
  else (tx.vin.filter (fun v => v.txid == id)).map TXInput.vout

/-- All vout indices a transaction list records as spent under a txid, in
walk order. -/
def spentList (l : List Transaction) (id : String) : List Int :=
  l.flatMap (fun tx => spentTx tx id)

/-- A possibly empty index list as a spent-map entry: no entry when empty. -/
def optList (l : List Int) : Option (List Int) :=
  match l with
  | [] => none
  | _ => some l

/-- Append new spends to a spent-map entry. -/
def joinOpt (o : Option (List Int)) (l : List Int) : Option (List Int) :=
  match o with
  | some v => some (v ++ l)
  | none => optList l

/-- The outputs the output loop pushes, from an indexed output list. -/
def outsAddList (spent : String → Option (List Int)) (id : String)
    (l : List (Nat × TXOutput)) : List TXOutput :=
  (l.filter (fun p => !spentHas spent id ((p.1 : Int)))).map Prod.snd

/-- The outputs the output loop pushes for a transaction. -/
def outsToAdd (spent : String → Option (List Int)) (tx : Transaction) :
    List TXOutput :=
  outsAddList spent tx.id tx.vout.enum

/-- Append pushed outputs to a utxos-map entry. -/
def joinOuts (o : Option TXOutputs) (l : List TXOutput) : Option TXOutputs :=
  match o with
  | some v => some ⟨v.outputs ++ l⟩
  | none => optOuts l

/-- The utxos-map entry after the scan has processed the transactions of
`pre`, with the spends of the full list `all` already visible. -/
def refEntry (all pre : List Transaction) (id : String) : Option TXOutputs :=
  match pre.find? (fun tx => tx.id == id) with
  | none => none
  | some tx => optOuts (replayOuts all tx)

/-- A prev_txs entry that is present but has an empty id. -/
def prevEmptyId (o : Option Transaction) : Bool :=
  match o with
  | some p => p.id == ""
  | none => false

/-- A prev_txs entry that, when present, has a non-empty id. -/
def prevOkId (o : Option Transaction) : Bool :=
  match o with
  | some p => !(p.id == "")
  | none => true

/-! ### Claim theorems -/

/-- C1: the claim says mine_block builds the new tip with height equal to the
persisted tip height plus one.  The code passes get_best_height() through to
Block::new_block unchanged: mining on a tip of height 0 with an empty (hence
vacuously all-verifying) transaction list persists a block whose height field
is 0, not 1. -/
theorem c1_mine_block_height_bug :
    getBestHeight bcGenesis = .ok 0 ∧
    (∃ nb bc1, mineBlock toyHex toyRaw toyEdVerify 1 bcGenesis [] 5 = .ok (nb, bc1) ∧
      nb.height = 0 ∧ nb.height ≠ 0 + 1) := by
  refine ⟨rfl, ?_⟩
  refine ⟨{ timestamp := 5, transactions := [], prev_block_hash := "g",
            hash := "0000abcd", height := 0, nonce := 0 },
          { current_hash := "0000abcd",
            db := { blocks := [("g", blkG),
                      ("0000abcd",
                        { timestamp := 5, transactions := [],
                          prev_block_hash := "g", hash := "0000abcd",
                          height := 0, nonce := 0 })],
                    last := some "0000abcd" } }, ?_, rfl, by decide⟩
  rfl

/-- C2: the claim says every unspent output sits in the stored vector at its
original output index, spent positions being preserved as gaps.  After
reindex of a chain where output 0 of the two-output transaction "a" is spent,
the store maps "a" to the single-element vector holding the output whose
original index is 1 at position 0: the gap is compacted away and indexing by
the referencing vout 1 misses. -/
theorem c2_index_compaction_bug :
    utxoReindex bcC2chain "a" = some ⟨[outA1]⟩ ∧
    txA2.vout.get? 1 = some outA1 ∧
    (TXOutputs.mk [outA1]).outputs.get? 1 = none := by
  refine ⟨rfl, rfl, rfl⟩

/-- C3: the claim says reindex at the initial tip followed by update of each
appended block leaves the same store contents as a fresh reindex at the final
tip.  Spending outputs 0 and then 1 of the three-output transaction "a" in two
appended blocks makes the replay keep the output of original index 1 (update
removes by position in the already compacted stored vector) while the fresh
reindex keeps the output of original index 2. -/
theorem c3_replay_mismatch_bug :
    runGet replayStoreC3 "a" = some (some ⟨[o3b]⟩) ∧
    utxoReindex bcC3end "a" = some ⟨[o3c]⟩ ∧
    o3b ≠ o3c := by
  refine ⟨rfl, rfl, by decide⟩

/-- C5: the claim says every transaction stored inside a persisted block has
its id equal to the hex digest of its id-cleared serialization.  Mining a
block over a transaction with a nonempty id stores that transaction with an
empty id, because Block::hash_transactions calls Transaction::hash on the
block's own transactions and that call clears the id in place without
restoring it; the required digest is nonempty. -/
theorem c5_cleared_id_bug :
    (∃ b, newBlock toyHex toyRaw 1 [txG] "" 0 7 = some b ∧
      b.transactions.map Transaction.id = [""]) ∧
    txHashValue toyHex (clearTx txG) ≠ "" := by
  refine ⟨⟨{ timestamp := 7, transactions := [clearTx txG], prev_block_hash := "",
             hash := "0000abcd", height := 0, nonce := 0 }, rfl, rfl⟩, by decide⟩

/-- C7 counterexample: the claim says Blockchain::new fails with NoChain when
the blocks store has no "LAST" key.  On the empty store the code returns Ok
with the empty string as tip hash. -/
theorem c7_counterexample :
    blockchainNew emptyDb = .ok { current_hash := "", db := emptyDb } := rfl

/-- C7 amended: when the "LAST" key is absent, Blockchain::new succeeds and
returns a Blockchain whose tip hash is the empty string; it does not fail. -/
theorem c7_missing_last_ok (db : BlocksDb) (h : db.last = none) :
    blockchainNew db = .ok { current_hash := "", db := db } := by
  simp [blockchainNew, h]

/-- Witness for c7_missing_last_ok at the empty store. -/
theorem c7_missing_last_ok_witness :
    emptyDb.last = none ∧
    blockchainNew emptyDb = .ok { current_hash := "", db := emptyDb } :=
  ⟨rfl, c7_missing_last_ok emptyDb rfl⟩

/-- C9: new_coinbase refuses to construct the reward transaction when the
receiving address has no wallet in the local store, whatever the digest,
address decoder, data string and store are. -/
theorem c9_coinbase_needs_wallet (hexDigest : List Nat → String)
    (addrDecode : String → List Nat) (wallets : String → Option Wallet)
    (toAddr data : String) (h : wallets toAddr = none) :
    newCoinbase hexDigest addrDecode wallets toAddr data =
      .error "coinbase wallet not found" := by
  simp [newCoinbase, h]

/-- Witness for c9_coinbase_needs_wallet on the empty wallet store. -/
theorem c9_coinbase_needs_wallet_witness :
    (fun _ => (none : Option Wallet)) "addr1" = none ∧
    newCoinbase toyHex toyAddrDecode (fun _ => none) "addr1" "" =
      .error "coinbase wallet not found" :=
  ⟨rfl, c9_coinbase_needs_wallet toyHex toyAddrDecode (fun _ => none) "addr1" "" rfl⟩

/-- Helper: a decode branch of bytes_to_cmd never aborts. -/
theorem decodeWith_ne_crash {α : Type} (dec : List Nat → Option α)
    (data : List Nat) (ctor : α → ServerMessage) :
    decodeWith dec data ctor ≠ RunResult.crash := by
  unfold decodeWith
  cases dec data <;> simp

/-- C10: bytes_to_cmd slices the first 12 bytes of the buffer unconditionally,
so every buffer shorter than CMD_LENGTH = 12 bytes aborts (panic) rather than
producing a Codec or UnknownCommand error, and every buffer of at least 12
bytes is parsed without aborting, whatever the payload decoders do. -/
theorem c10_cmd_slice (d : Decoders) (bytes : List Nat) :
    (bytes.length < CMD_LENGTH → bytesToCmd d bytes = .crash) ∧
    (CMD_LENGTH ≤ bytes.length → bytesToCmd d bytes ≠ .crash) := by
  constructor
  · intro h
    simp [bytesToCmd, h]
  · intro h
    have hlt : ¬ bytes.length < CMD_LENGTH := by omega
    simp only [bytesToCmd, if_neg hlt]
    split
    · exact decodeWith_ne_crash _ _ _
    split
    · exact decodeWith_ne_crash _ _ _
    split
    · exact decodeWith_ne_crash _ _ _
    split
    · exact decodeWith_ne_crash _ _ _
    split
    · exact decodeWith_ne_crash _ _ _
    split
    · exact decodeWith_ne_crash _ _ _
    split
    · exact decodeWith_ne_crash _ _ _
    · simp

/-- Witness for c10_cmd_slice: a three-byte buffer aborts, a twelve-byte
buffer does not. -/
theorem c10_cmd_slice_witness :
    ([1, 2, 3] : List Nat).length < CMD_LENGTH ∧
    bytesToCmd toyDecoders [1, 2, 3] = .crash ∧
    bytesToCmd toyDecoders (List.replicate 12 0) ≠ .crash :=
  ⟨by decide, (c10_cmd_slice toyDecoders [1, 2, 3]).1 (by decide),
    (c10_cmd_slice toyDecoders (List.replicate 12 0)).2 (by decide)⟩

/-- Helper: digests of id-cleared transactions are unchanged by clearing. -/
theorem map_digest_clearTx (f : List Nat → String) (l : List Transaction) :
    (l.map clearTx).map (fun t => strBytes (txHashValue f t)) =
      l.map (fun t => strBytes (txHashValue f t)) := by
  induction l with
  | nil => rfl
  | cons t l ih => simp only [List.map_cons, ih]; rfl

/-- Helper: clearing every transaction id twice is the same as once. -/
theorem map_clearTx_clearTx (l : List Transaction) :
    (l.map clearTx).map clearTx = l.map clearTx := by
  induction l with
  | nil => rfl
  | cons t l ih => simp only [List.map_cons, ih]; rfl

/-- Helper: the id-clearing mutation of a block is idempotent. -/
theorem mutB_idem (b : Block) : mutB (mutB b) = mutB b := by
  simp only [mutB, map_clearTx_clearTx]

/-- Helper: the serialized block content ignores the id mutation. -/
theorem blockContent_mutB (f : List Nat → String) (s : List Nat → List Nat)
    (b : Block) : blockContent f s (mutB b) = blockContent f s b := by
  simp only [blockContent, serializeBlock, hashTransactions, mutB,
    map_digest_clearTx]

/-- Helper: the serialized block content ignores the hash field. -/
theorem blockContent_hash (f : List Nat → String) (s : List Nat → List Nat)
    (b : Block) (h : String) :
    blockContent f s { b with hash := h } = blockContent f s b := rfl

/-- Helper: second component of serializeBlock is the id-cleared block. -/
theorem serializeBlock_snd (f : List Nat → String) (s : List Nat → List Nat)
    (b : Block) : (serializeBlock f s b).2 = mutB b := rfl

/-- Helper: first component of serializeBlock is the block content. -/
theorem serializeBlock_fst (f : List Nat → String) (s : List Nat → List Nat)
    (b : Block) : (serializeBlock f s b).1 = blockContent f s b := rfl

/-- Helper: outcome of a successful proof-of-work search: the returned block
is id-clearing stable and its content digest passes the difficulty check. -/
theorem powLoop_spec (f : List Nat → String) (s : List Nat → List Nat) :
    ∀ (fuel : Nat) (b b1 : Block), powLoop f s fuel b = some b1 →
      mutB b1 = b1 ∧
      ((f (blockContent f s b1)).take TARGET_HEXT == "0000") = true := by
  intro fuel
  induction fuel with
  | zero => intro b b1 h; simp [powLoop] at h
  | succ n ih =>
    intro b b1 h
    rw [powLoop] at h
    by_cases hv : (validateBlock f s b).1 = true
    · rw [if_pos hv] at h
      have hb1 : b1 = mutB b := by
        have h2 : (validateBlock f s b).2 = b1 := by injection h
        rw [← h2]; rfl
      subst hb1
      refine ⟨mutB_idem b, ?_⟩
      rw [blockContent_mutB]
      exact hv
    · rw [if_neg hv] at h
      exact ih _ _ h

/-- C6: every block returned by new_block carries, as its hash field, the hex
digest of the serialized tuple (prev_block_hash, merkle root of its
transactions, timestamp, TARGET_HEXT, nonce), and the first TARGET_HEXT = 4
characters of that hash are all the character of "0000"; the proof-of-work
loop increments the nonce until the check holds.  Stated for every digest and
raw-hash collaborator and every fuel bound of the unbounded Rust loop. -/
theorem c6_block_hash_pow (f : List Nat → String) (s : List Nat → List Nat)
    (fuel : Nat) (data : List Transaction) (prevh : String) (height ts : Nat)
    (b : Block) (h : newBlock f s fuel data prevh height ts = some b) :
    b.hash = f (blockContent f s b) ∧ b.hash.take TARGET_HEXT = "0000" := by
  unfold newBlock runProofOfWork at h
  cases hp : powLoop f s fuel
      { timestamp := ts, transactions := data, prev_block_hash := prevh,
        hash := "", height := height, nonce := 0 } with
  | none => rw [hp] at h; exact absurd h (by simp)
  | some b1 =>
    rw [hp] at h
    obtain ⟨hst, hcond⟩ := powLoop_spec f s fuel _ b1 hp
    have hb : b = { b1 with hash := f (blockContent f s b1) } := by
      have h2 : { (serializeBlock f s b1).2 with
                  hash := f (serializeBlock f s b1).1 } = b := by injection h
      rw [← h2, serializeBlock_snd, serializeBlock_fst, hst]
    subst hb
    exact ⟨rfl, eq_of_beq hcond⟩

/-- Witness for c6_block_hash_pow: with the constant digest collaborator the
search succeeds immediately at nonce 0. -/
theorem c6_block_hash_pow_witness :
    newBlock toyHex toyRaw 1 [] "p" 3 9 =
      some { timestamp := 9, transactions := [], prev_block_hash := "p",
             hash := "0000abcd", height := 3, nonce := 0 } ∧
    ({ timestamp := 9, transactions := [], prev_block_hash := "p",
       hash := "0000abcd", height := 3, nonce := 0 : Block }.hash =
        toyHex (blockContent toyHex toyRaw
          { timestamp := 9, transactions := [], prev_block_hash := "p",
            hash := "0000abcd", height := 3, nonce := 0 }) ∧
      ({ timestamp := 9, transactions := [], prev_block_hash := "p",
         hash := "0000abcd", height := 3, nonce := 0 : Block }).hash.take
          TARGET_HEXT = "0000") :=
  ⟨rfl, c6_block_hash_pow toyHex toyRaw 1 [] "p" 3 9 _ rfl⟩

/-- Helper: the prev-transaction check of verify and sign returns the error
outcome when every referenced transaction is present and some referenced
transaction has an empty id. -/
theorem checkPrevs_err (prevs : String → Option Transaction) :
    ∀ vins : List TXInput,
      vins.all (fun v => (prevs v.txid).isSome) = true →
      vins.any (fun v => prevEmptyId (prevs v.txid)) = true →
      checkPrevs prevs vins = .errC := by
  intro vins
  induction vins with
  | nil => intro _ hany; simp at hany
  | cons v rest ih =>
    intro hall hany
    rw [List.all_cons, Bool.and_eq_true] at hall
    obtain ⟨p, hp⟩ := Option.isSome_iff_exists.mp hall.1
    simp only [checkPrevs, hp]
    by_cases hid : p.id = ""
    · rw [if_pos hid]
    · rw [if_neg hid]
      rw [List.any_cons, Bool.or_eq_true] at hany
      rcases hany with hhead | htail
      · rw [hp] at hhead
        simp only [prevEmptyId, beq_iff_eq] at hhead
        exact absurd hhead hid
      · exact ih hall.2 htail

/-- Helper: the prev-transaction check of verify and sign aborts (unwrap on
None) when no present referenced transaction has an empty id and some
referenced transaction is missing. -/
theorem checkPrevs_crash (prevs : String → Option Transaction) :
    ∀ vins : List TXInput,
      vins.all (fun v => prevOkId (prevs v.txid)) = true →
      vins.any (fun v => (prevs v.txid).isNone) = true →
      checkPrevs prevs vins = .crashC := by
  intro vins
  induction vins with
  | nil => intro _ hany; simp at hany
  | cons v rest ih =>
    intro hall hany
    rw [List.all_cons, Bool.and_eq_true] at hall
    cases hp : prevs v.txid with
    | none => simp only [checkPrevs, hp]
    | some p =>
      have hid : ¬ p.id = "" := by
        have h1 := hall.1
        rw [hp] at h1
        simpa [prevOkId] using h1
      simp only [checkPrevs, hp]
      rw [if_neg hid]
      rw [List.any_cons, Bool.or_eq_true] at hany
      rcases hany with hhead | htail
      · rw [hp] at hhead; simp at hhead
      · exact ih hall.2 htail

/-- C8 amended: Transaction::sign and Transaction::verify short-circuit to
success on a coinbase transaction (verify gives true, sign returns the
transaction unchanged).  For a non-coinbase transaction, when every input's
referenced transaction is present in prev_txs and some referenced transaction
has an empty id, both return the corrupt-previous-transaction error; but when
no present referenced transaction has an empty id and some referenced
transaction is missing from prev_txs, both abort the process (unwrap on None)
instead of returning an error. -/
theorem c8_prev_tx_handling (f : List Nat → String)
    (ev : List Nat → List Nat → List Nat → Bool)
    (es : List Nat → List Nat → List Nat) (pk : List Nat)
    (tx : Transaction) (prevs : String → Option Transaction) :
    (isCoinbase tx = true →
      txVerify f ev tx prevs = .ok true ∧ txSign f es pk tx prevs = .ok tx) ∧
    (isCoinbase tx = false →
      tx.vin.all (fun v => (prevs v.txid).isSome) = true →
      tx.vin.any (fun v => prevEmptyId (prevs v.txid)) = true →
      txVerify f ev tx prevs = .err "ERROR: Previous transaction is not correct" ∧
      txSign f es pk tx prevs = .err "ERROR: Previous transaction is not correct") ∧
    (isCoinbase tx = false →
      tx.vin.all (fun v => prevOkId (prevs v.txid)) = true →
      tx.vin.any (fun v => (prevs v.txid).isNone) = true →
      txVerify f ev tx prevs = .crash ∧ txSign f es pk tx prevs = .crash) := by
  refine ⟨?_, ?_, ?_⟩
  · intro hcb
    rw [txVerify, txSign, if_pos hcb, if_pos hcb]
    exact ⟨rfl, rfl⟩
  · intro hcb hall hany
    rw [txVerify, txSign, if_neg (by simp [hcb]), if_neg (by simp [hcb]),
      checkPrevs_err prevs tx.vin hall hany]
    exact ⟨rfl, rfl⟩
  · intro hcb hall hany
    rw [txVerify, txSign, if_neg (by simp [hcb]), if_neg (by simp [hcb]),
      checkPrevs_crash prevs tx.vin hall hany]
    exact ⟨rfl, rfl⟩

/-- Witness for c8_prev_tx_handling: on a concrete one-input transaction with
an empty prev_txs map, both operations abort. -/
theorem c8_prev_tx_handling_witness :
    isCoinbase txMissingPrev = false ∧
    txMissingPrev.vin.all
      (fun v => prevOkId ((fun _ => (none : Option Transaction)) v.txid)) = true ∧
    txMissingPrev.vin.any
      (fun v => ((fun _ => (none : Option Transaction)) v.txid).isNone) = true ∧
    txVerify toyHex toyEdVerify txMissingPrev (fun _ => none) = .crash ∧
    txSign toyHex toyEdSign [] txMissingPrev (fun _ => none) = .crash :=
  ⟨by decide, by decide, by decide,
    (c8_prev_tx_handling toyHex toyEdVerify toyEdSign []
      txMissingPrev (fun _ => none)).2.2 (by decide) (by decide) (by decide)⟩

/-- C8 counterexample: the claim says a referenced txid missing from prev_txs
makes verify and sign return an error rather than aborting the process; on
this concrete transaction both paths unwrap None and abort. -/
theorem c8_counterexample :
    txVerify toyHex toyEdVerify txMissingPrev (fun _ => none) = .crash ∧
    txSign toyHex toyEdSign [] txMissingPrev (fun _ => none) = .crash ∧
    RunResult.crash ≠
      RunResult.err (α := Bool) "ERROR: Previous transaction is not correct" :=
  ⟨rfl, rfl, by decide⟩

/-- Helper: membership characterisation of the spends one transaction
records under a txid. -/
theorem mem_spentTx (tx : Transaction) (id : String) (idx : Int) :
    idx ∈ spentTx tx id ↔
      isCoinbase tx = false ∧ ∃ v ∈ tx.vin, v.txid = id ∧ v.vout = idx := by
  unfold spentTx
  by_cases h : isCoinbase tx = true
  · simp [h]
  · simp only [Bool.not_eq_true] at h
    simp [h, List.mem_map, List.mem_filter]
    constructor
    · rintro ⟨v, ⟨hv, htxid⟩, hvout⟩
      exact ⟨v, hv, htxid, hvout⟩
    · rintro ⟨v, hv, htxid, hvout⟩
      exact ⟨v, ⟨hv, htxid⟩, hvout⟩

/-- Helper: membership characterisation of the spends a transaction list
records under a txid. -/
theorem mem_spentList (l : List Transaction) (id : String) (idx : Int) :
    idx ∈ spentList l id ↔
      ∃ tx ∈ l, isCoinbase tx = false ∧
        ∃ v ∈ tx.vin, v.txid = id ∧ v.vout = idx := by
  simp [spentList, List.mem_flatMap, mem_spentTx]

/-- Helper: truth characterisation of the spec-side spent test. -/
theorem refSpent_iff (l : List Transaction) (id : String) (idx : Int) :
    refSpent l id idx = true ↔
      ∃ tx ∈ l, isCoinbase tx = false ∧
        ∃ v ∈ tx.vin, v.txid = id ∧ v.vout = idx := by
  simp [refSpent, List.any_eq_true]

/-- Helper: truth characterisation of the scan-side spent test through the
optList encoding of the spent map. -/
theorem spentHas_iff (s : String → Option (List Int)) (id : String)
    (L : List Int) (h : s id = optList L) (idx : Int) :
    spentHas s id idx = true ↔ idx ∈ L := by
  cases L with
  | nil => rw [spentHas, h]; simp [optList]
  | cons a L => rw [spentHas, h]; simp [optList, List.elem_iff]

/-- Helper: lookup through the input fold of recordSpends. -/
theorem foldSpend_lookup (vins : List TXInput) :
    ∀ (s : String → Option (List Int)) (id : String),
      (vins.foldl spendStep s) id =
        joinOpt (s id) ((vins.filter (fun v => v.txid == id)).map TXInput.vout) := by
  induction vins with
  | nil =>
    intro s id
    cases h : s id <;> simp [joinOpt, optList, h]
  | cons v rest ih =>
    intro s id
    rw [List.foldl_cons, ih]
    by_cases hv : v.txid = id
    · subst hv
      cases h : s v.txid with
      | some w =>
        have hstep : (spendStep s v) v.txid = some (w ++ [v.vout]) := by
          simp [spendStep, h, mapIns]
        rw [hstep]
        simp [joinOpt, List.filter_cons, List.append_assoc]
      | none =>
        have hstep : (spendStep s v) v.txid = some [v.vout] := by
          simp [spendStep, h, mapIns]
        rw [hstep]
        simp [joinOpt, optList, List.filter_cons]
    · have hne : ¬(id = v.txid) := fun hh => hv hh.symm
      have hstep : (spendStep s v) id = s id := by
        unfold spendStep
        cases h : s v.txid <;> simp [mapIns, hne]
      rw [hstep]
      simp [List.filter_cons, hv]

/-- Helper: lookup through recordSpends. -/
theorem recordSpends_lookup (s : String → Option (List Int)) (tx : Transaction)
    (id : String) :
    recordSpends s tx id = joinOpt (s id) (spentTx tx id) := by
  unfold recordSpends spentTx
  by_cases h : isCoinbase tx = true
  · simp only [h, if_pos]
    cases hh : s id <;> simp [joinOpt, optList, hh]
  · simp only [Bool.not_eq_true] at h
    simp [h, foldSpend_lookup]

/-- Helper: joining new spends onto an optList entry is appending. -/
theorem joinOpt_optList (a b : List Int) :
    joinOpt (optList a) b = optList (a ++ b) := by
  cases a with
  | nil => rfl
  | cons x a => simp [joinOpt, optList, List.cons_append]

/-- Helper: spends of a cons list. -/
theorem spentList_cons (tx : Transaction) (l : List Transaction) (id : String) :
    spentList (tx :: l) id = spentTx tx id ++ spentList l id := by
  simp [spentList]

/-- Helper: spends of an append. -/
theorem spentList_append (l1 l2 : List Transaction) (id : String) :
    spentList (l1 ++ l2) id = spentList l1 id ++ spentList l2 id := by
  simp [spentList]

/-- Helper: a list no transaction of which spends under a txid records no
spends there. -/
theorem spentList_eq_nil (l : List Transaction) (id : String)
    (h : ∀ tx ∈ l, isCoinbase tx = false → ∀ vin ∈ tx.vin, vin.txid ≠ id) :
    spentList l id = [] := by
  rw [List.eq_nil_iff_forall_not_mem]
  intro idx hidx
  rw [mem_spentList] at hidx
  obtain ⟨tx, htx, hcb, v, hv, htxid, _⟩ := hidx
  exact h tx htx hcb v hv htxid

/-- Helper: the output fold leaves every key other than the transaction id
untouched. -/
theorem foldOut_lookup_ne (spent : String → Option (List Int)) (tid : String)
    (L : List (Nat × TXOutput)) :
    ∀ (u : String → Option TXOutputs) (id : String), id ≠ tid →
      (L.foldl (outStep spent tid) u) id = u id := by
  induction L with
  | nil => intro u id _; rfl
  | cons p rest ih =>
    intro u id h
    rw [List.foldl_cons, ih _ _ h]
    unfold outStep
    by_cases hs : spentHas spent tid ((p.1 : Int)) = true
    · rw [if_pos hs]
    · rw [if_neg hs]
      unfold pushOut
      cases hu : u tid <;> simp [mapIns, h]

/-- Helper: the output fold appends exactly the kept outputs under the
transaction id. -/
theorem foldOut_lookup_eq (spent : String → Option (List Int)) (tid : String)
    (L : List (Nat × TXOutput)) :
    ∀ u : String → Option TXOutputs,
      (L.foldl (outStep spent tid) u) tid =
        joinOuts (u tid) (outsAddList spent tid L) := by
  induction L with
  | nil =>
    intro u
    cases h : u tid <;> simp [joinOuts, optOuts, outsAddList, h]
  | cons p rest ih =>
    intro u
    rw [List.foldl_cons, ih]
    unfold outStep
    by_cases hs : spentHas spent tid ((p.1 : Int)) = true
    · rw [if_pos hs]
      simp [outsAddList, List.filter_cons, hs]
    · rw [if_neg hs]
      simp only [Bool.not_eq_true] at hs
      cases h : u tid with
      | some w =>
        have hpush : (pushOut u tid p.2) tid = some ⟨w.outputs ++ [p.2]⟩ := by
          simp [pushOut, h, mapIns]
        rw [hpush]
        simp [joinOuts, outsAddList, List.filter_cons, hs, List.append_assoc]
      | none =>
        have hpush : (pushOut u tid p.2) tid = some ⟨[p.2]⟩ := by
          simp [pushOut, h, mapIns]
        rw [hpush]
        simp [joinOuts, optOuts, outsAddList, List.filter_cons, hs]

/-- Helper: the output scan of one transaction leaves other keys untouched. -/
theorem scanOuts_ne (spent : String → Option (List Int)) (tx : Transaction)
    (u : String → Option TXOutputs) (id : String) (h : id ≠ tx.id) :
    scanTxOutputs spent tx u id = u id :=
  foldOut_lookup_ne spent tx.id tx.vout.enum u id h

/-- Helper: the output scan of one transaction appends its kept outputs under
its id. -/
theorem scanOuts_eq (spent : String → Option (List Int)) (tx : Transaction)
    (u : String → Option TXOutputs) :
    scanTxOutputs spent tx u tx.id = joinOuts (u tx.id) (outsToAdd spent tx) :=
  foldOut_lookup_eq spent tx.id tx.vout.enum u

/-- Helper: head decomposition of the forward-spending check. -/
theorem sfa_head {seen : List String} {tx : Transaction} {rest : List Transaction}
    (h : spendsForwardAux seen (tx :: rest) = true) :
    (isCoinbase tx = false → ∀ vin ∈ tx.vin, ∀ s2 ∈ tx.id :: seen, vin.txid ≠ s2) ∧
    spendsForwardAux (seen ++ [tx.id]) rest = true := by
  rw [spendsForwardAux, Bool.and_eq_true] at h
  refine ⟨?_, h.2⟩
  intro hcb vin hvin s2 hs2
  have h1 := h.1
  rw [hcb] at h1
  simp only [Bool.false_or, List.all_eq_true] at h1
  exact (by simpa [bne_iff_ne] using h1 vin hvin s2 hs2 : vin.txid ≠ s2)

/-- Helper: a passing forward-spending check means no transaction of the list
spends under any already-seen id. -/
theorem sfa_no_ref (l : List Transaction) :
    ∀ seen : List String, spendsForwardAux seen l = true →
      ∀ s2 ∈ seen, ∀ tx ∈ l, isCoinbase tx = false →
        ∀ vin ∈ tx.vin, vin.txid ≠ s2 := by
  induction l with
  | nil => intro seen _ s2 _ tx htx; simp at htx
  | cons t rest ih =>
    intro seen h s2 hs2 tx htx hcb vin hvin
    obtain ⟨hhead, htail⟩ := sfa_head h
    rcases List.mem_cons.mp htx with rfl | hmem
    · exact hhead hcb vin hvin s2 (List.mem_cons_of_mem _ hs2)
    · exact ih (seen ++ [t.id]) htail s2 (List.mem_append_left _ hs2) tx hmem hcb
        vin hvin

/-- Helper: a passing forward-spending check means no transaction of the list
spends under the id of the head transaction. -/
theorem sfa_no_self_ref {seen : List String} {tx : Transaction}
    {rest : List Transaction}
    (h : spendsForwardAux seen (tx :: rest) = true) :
    ∀ tx2 ∈ tx :: rest, isCoinbase tx2 = false →
      ∀ vin ∈ tx2.vin, vin.txid ≠ tx.id := by
  obtain ⟨hhead, htail⟩ := sfa_head h
  intro tx2 htx2 hcb vin hvin
  rcases List.mem_cons.mp htx2 with rfl | hmem
  · exact hhead hcb vin hvin tx2.id (List.mem_cons_self _ _)
  · exact sfa_no_ref rest (seen ++ [tx.id]) htail tx.id
      (List.mem_append_right _ (List.mem_cons_self _ _)) tx2 hmem hcb vin hvin

/-- Helper: invariant of the find_utxo scan.  Processing the remaining
transactions of a well-formed walk, starting from a state that reflects the
already-processed ones, ends in the state that reflects the whole walk: the
spent map holds exactly the recorded spends, and the utxos map holds, for
every already-walked transaction, its outputs filtered by the complete spend
set of the walk. -/
theorem scan_inv (all : List Transaction)
    (hn : (all.map Transaction.id).Nodup) :
    ∀ (suf pre : List Transaction) (st : ScanSt),
      all = pre ++ suf →
      spendsForwardAux (pre.map Transaction.id) suf = true →
      (∀ id, st.spent id = optList (spentList pre id)) →
      (∀ id, st.utxos id = refEntry all pre id) →
      (∀ id, (suf.foldl scanTx st).spent id = optList (spentList all id)) ∧
      (∀ id, (suf.foldl scanTx st).utxos id = refEntry all all id) := by
  intro suf
  induction suf with
  | nil =>
    intro pre st hall _ hs hu
    rw [List.append_nil] at hall
    subst hall
    exact ⟨by simpa using hs, by simpa using hu⟩
  | cons tx rest ih =>
    intro pre st hall hf hs hu
    rw [List.foldl_cons]
    have hnotin : tx.id ∉ pre.map Transaction.id := by
      intro hmem
      rw [hall, List.map_append] at hn
      exact (List.nodup_append.mp hn).2.2 hmem (by simp)
    have hnospend : ∀ tx2 ∈ tx :: rest, isCoinbase tx2 = false →
        ∀ vin ∈ tx2.vin, vin.txid ≠ tx.id := sfa_no_self_ref hf
    have hspentpre : spentList all tx.id = spentList pre tx.id := by
      rw [hall, spentList_append, spentList_eq_nil _ _ hnospend, List.append_nil]
    have hs1 : ∀ id, (scanTx st tx).spent id =
        optList (spentList (pre ++ [tx]) id) := by
      intro id
      show recordSpends st.spent tx id = _
      rw [recordSpends_lookup, hs id, joinOpt_optList, spentList_append]
      simp [spentList_cons, spentList]
    have hhas : ∀ idx, spentHas st.spent tx.id idx = refSpent all tx.id idx := by
      intro idx
      rw [Bool.eq_iff_iff,
        spentHas_iff st.spent tx.id (spentList pre tx.id) (hs tx.id) idx,
        ← hspentpre, mem_spentList, refSpent_iff]
    have hfindpre : pre.find? (fun t => t.id == tx.id) = none := by
      rw [List.find?_eq_none]
      intro t ht
      simp only [beq_iff_eq]
      intro heq
      exact hnotin (heq ▸ List.mem_map_of_mem Transaction.id ht)
    have hu1 : ∀ id, (scanTx st tx).utxos id = refEntry all (pre ++ [tx]) id := by
      intro id
      show scanTxOutputs st.spent tx st.utxos id = _
      by_cases hid : id = tx.id
      · subst hid
        rw [scanOuts_eq]
        have hupre : st.utxos tx.id = none := by
          rw [hu tx.id]
          unfold refEntry
          rw [hfindpre]
        rw [hupre]
        have houts : outsToAdd st.spent tx = replayOuts all tx := by
          unfold outsToAdd outsAddList replayOuts
          refine congrArg _ (List.filter_congr ?_)
          intro p _
          simp [hhas]
        rw [houts]
        unfold refEntry
        rw [List.find?_append, hfindpre, Option.none_or,
          List.find?_cons_of_pos _ (by simp)]
        simp [joinOuts]
      · rw [scanOuts_ne _ _ _ _ hid, hu id]
        unfold refEntry
        rw [List.find?_append,
          List.find?_cons_of_neg _ (by simp; exact fun hh => hid hh.symm),
          List.find?_nil, Option.or_none]
    have hall1 : all = (pre ++ [tx]) ++ rest := by
      rw [hall, List.append_cons]
    have hf1 : spendsForwardAux ((pre ++ [tx]).map Transaction.id) rest = true := by
      rw [List.map_append]
      exact (sfa_head hf).2
    exact ih (pre ++ [tx]) (scanTx st tx) hall1 hf1 hs1 hu1

/-- Helper: folding the scan block by block is folding it over the flattened
transaction walk. -/
theorem foldl_blocks_txs (blocks : List Block) :
    ∀ st : ScanSt,
      blocks.foldl (fun st (b : Block) => b.transactions.foldl scanTx st) st =
        (txsOf blocks).foldl scanTx st := by
  induction blocks with
  | nil => intro st; rfl
  | cons b bs ih =>
    intro st
    rw [List.foldl_cons, ih]
    show _ = (txsOf (b :: bs)).foldl scanTx st
    rw [show txsOf (b :: bs) = b.transactions ++ txsOf bs by simp [txsOf],
      List.foldl_append]

/-- C4: on every chain whose walked transactions have pairwise distinct ids
and spend only chronologically older transactions (which is what the mining
path enforces), Blockchain::find_utxo returns exactly the map obtained by
replaying all outputs and removing every output referenced by a non-coinbase
input, the collected outputs of each transaction appearing in output order. -/
theorem c4_find_utxo_replay (bc : Blockchain)
    (hn : ((txsOf (iterBlocks bc)).map Transaction.id).Nodup)
    (hf : spendsForward (txsOf (iterBlocks bc)) = true) :
    ∀ id, bcFindUTXO bc id = replayUTXO (txsOf (iterBlocks bc)) id := by
  intro id
  have h := scan_inv (txsOf (iterBlocks bc)) hn (txsOf (iterBlocks bc)) []
    emptyScan rfl hf (fun _ => rfl) (fun _ => rfl)
  have h2 := h.2 id
  rw [show bcFindUTXO bc id =
      ((txsOf (iterBlocks bc)).foldl scanTx emptyScan).utxos id by
    unfold bcFindUTXO findUTXO
    rw [foldl_blocks_txs]]
  rw [h2]
  unfold refEntry replayUTXO
  rfl

/-- Witness for c4_find_utxo_replay on the concrete three-block chain. -/
theorem c4_find_utxo_replay_witness :
    ((txsOf (iterBlocks bcC3end)).map Transaction.id).Nodup ∧
    spendsForward (txsOf (iterBlocks bcC3end)) = true ∧
    (∀ id, bcFindUTXO bcC3end id = replayUTXO (txsOf (iterBlocks bcC3end)) id) :=
  ⟨by decide, by decide, c4_find_utxo_replay bcC3end (by decide) (by decide)⟩

end RChain
